import Mathlib

/-!
# A verification development for the `zk` wiki server (`main.go`)

The program is a small HTTP wiki: three routes (`/p/`, `/e/`, `/s/`), a page
store of plain files under `data/`, one regular expression that validates the
request path and one that finds `@word` links in a page body.

The embedding is shallow:

* a Go `string` / `[]byte` is the list of its symbols (`Str`); both patterns of
  the program inspect ASCII symbols only;
* the two `regexp` values are terms of a small regular-expression syntax
  (`Regex`) run by a backtracking matcher with Go's leftmost-first preference
  order;
* the handlers are state transformers on a `World`: the file store, the fault
  oracles of the operating system and of the template engine, and the ordered
  trace of library calls made so far (file reads and writes, `http.NotFound`,
  `http.Redirect`, `http.Error`, `ExecuteTemplate`).
-/

namespace Zk

/-- A Go `string` or `[]byte`, as the list of its symbols. -/
abbrev Str := List Char

/-! ## Regular expressions (the part of Go's `regexp` that the program uses) -/

/-- Syntax of the regular expressions occurring in `main.go`. -/
inductive Regex where
  /-- the empty pattern -/
  | empty : Regex
  /-- one literal symbol -/
  | char (c : Char) : Regex
  /-- a character class `[a-b...]`, as a list of inclusive ranges -/
  | cls (ranges : List (Char × Char)) : Regex
  /-- the assertion `^` (beginning of text; no multi-line flag) -/
  | bol : Regex
  /-- the assertion `$` (end of text; no multi-line flag) -/
  | eol : Regex
  /-- concatenation -/
  | seq (a b : Regex) : Regex
  /-- alternation `a|b`, preferring `a` -/
  | alt (a b : Regex) : Regex
  /-- greedy repetition `a+` -/
  | plus (a : Regex) : Regex
  /-- the capturing group number `n` -/
  | group (n : Nat) (a : Regex) : Regex

/-- A literal string as a pattern. -/
def Regex.lit : Str → Regex
  | [] => Regex.empty
  | c :: cs => Regex.seq (Regex.char c) (Regex.lit cs)

/-- Number of capturing groups of a pattern (`NumSubexp`). -/
def Regex.numSubexp : Regex → Nat
  | Regex.seq a b => max a.numSubexp b.numSubexp
  | Regex.alt a b => max a.numSubexp b.numSubexp
  | Regex.plus a => a.numSubexp
  | Regex.group n a => max n a.numSubexp
  | _ => 0

/-- Membership of a symbol in a character class. -/
def inClass (ranges : List (Char × Char)) (c : Char) : Bool :=
  ranges.any fun r => decide (r.1 ≤ c) && decide (c ≤ r.2)

/-- A thread of the matcher: the index of the next unread symbol, the unread
symbols, and the index pairs captured so far (latest first). -/
structure MState where
  pos : Nat
  rest : Str
  caps : List (Nat × (Nat × Nat))
deriving DecidableEq

/-- Greedy iteration of `a+`: run the body once, then prefer another round
(only after progress in the text) over stopping. -/
def plusLoop (step : MState → List MState) : Nat → MState → List MState
  | 0, _ => []
  | fuel + 1, s =>
    (step s).flatMap fun s1 =>
      (if s1.rest.length < s.rest.length then plusLoop step fuel s1 else []) ++ [s1]

/-- All ways in which a pattern matches a prefix of the unread text, in Go's
preference order (the first one is the match the library reports). -/
def Regex.run : Regex → MState → List MState
  | Regex.empty => fun s => [s]
  | Regex.char c => fun s =>
    match s.rest with
    | x :: xs => if x = c then [{ s with pos := s.pos + 1, rest := xs }] else []
    | [] => []
  | Regex.cls ranges => fun s =>
    match s.rest with
    | x :: xs => if inClass ranges x then [{ s with pos := s.pos + 1, rest := xs }] else []
    | [] => []
  | Regex.bol => fun s => if s.pos = 0 then [s] else []
  | Regex.eol => fun s => if s.rest = [] then [s] else []
  | Regex.seq a b => fun s => (a.run s).flatMap b.run
  | Regex.alt a b => fun s => a.run s ++ b.run s
  | Regex.plus a => fun s => plusLoop a.run (s.rest.length + 1) s
  | Regex.group n a => fun s =>
    (a.run s).map fun s1 => { s1 with caps := (n, (s.pos, s1.pos)) :: s1.caps }

/-- The preferred match that starts exactly at index `pos`. -/
def Regex.matchHere (re : Regex) (pos : Nat) (rest : Str) : Option MState :=
  (re.run { pos := pos, rest := rest, caps := [] }).head?

/-- Unanchored search: the leftmost start index at or after `pos` that has a
match, with that match. `rest` is the text from index `pos` on. -/
def Regex.search (re : Regex) : Nat → Str → Option (Nat × MState)
  | pos, [] => (re.matchHere pos []).map fun s => (pos, s)
  | pos, c :: cs =>
    match re.matchHere pos (c :: cs) with
    | some s => some (pos, s)
    | none => re.search (pos + 1) cs

/-- The symbols of `s` from index `i` up to index `j`, Go's `s[i:j]`. -/
def slice (s : Str) (i j : Nat) : Str := (s.drop i).take (j - i)

/-- The text of group `n` of a match (empty when the group did not take part). -/
def groupText (text : Str) (caps : List (Nat × (Nat × Nat))) (n : Nat) : Str :=
  match caps.lookup n with
  | some (i, j) => slice text i j
  | none => []

/-- Go's `(*Regexp).FindStringSubmatch`: `none` is Go's `nil`; otherwise the text
of the whole match followed by the text of each capturing group. -/
def Regex.FindStringSubmatch (re : Regex) (text : Str) : Option (List Str) :=
  match re.search 0 text with
  | none => none
  | some (start, s) =>
    some (slice text start s.pos ::
      (List.range re.numSubexp).map fun i => groupText text s.caps (i + 1))

/-- Go's `(*Regexp).ReplaceAllFunc`, after the library's `replaceAll` loop:
`searchPos` is where the next search starts, `lastMatchEnd` is where the last
match ended, `buf` is the output so far. -/
def replaceAllLoop (re : Regex) (src : Str) (repl : Str → Str) :
    Nat → Nat → Nat → Str → Str
  | 0, _, lastMatchEnd, buf => buf ++ src.drop lastMatchEnd
  | fuel + 1, searchPos, lastMatchEnd, buf =>
    if src.length < searchPos then buf ++ src.drop lastMatchEnd
    else
      match re.search searchPos (src.drop searchPos) with
      | none => buf ++ src.drop lastMatchEnd
      | some (a0, s) =>
        let a1 := s.pos
        let buf1 := buf ++ slice src lastMatchEnd a0
        let buf2 := if lastMatchEnd < a1 ∨ a0 = 0 then buf1 ++ repl (slice src a0 a1) else buf1
        let width := if searchPos < src.length then 1 else 0
        let searchPos1 :=
          if a1 < searchPos + width then searchPos + width
          else if a1 < searchPos + 1 then searchPos + 1
          else a1
        replaceAllLoop re src repl fuel searchPos1 a1 buf2

/-- Go's `(*Regexp).ReplaceAllFunc`. Every round of the loop moves `searchPos`
forward, so `len(src) + 1` rounds reach the end of the text. -/
def Regex.ReplaceAllFunc (re : Regex) (src : Str) (repl : Str → Str) : Str :=
  replaceAllLoop re src repl (src.length + 1) 0 0 []

/-- Go's `strings.ReplaceAll` for a non-empty `old`, scanning left to right;
the counter is the number of symbols of the current occurrence still to drop. -/
def replaceGo (old new : Str) : Nat → Str → Str
  | _, [] => []
  | skip + 1, _ :: cs => replaceGo old new skip cs
  | 0, c :: cs =>
    if old.isPrefixOf (c :: cs) then new ++ replaceGo old new (old.length - 1) cs
    else c :: replaceGo old new 0 cs

/-- Go's `strings.ReplaceAll`; an empty `old` matches before every symbol and at
the end of the text. -/
def stringsReplaceAll (s old new : Str) : Str :=
  if old = [] then new ++ s.flatMap (fun c => c :: new)
  else replaceGo old new 0 s

/-! ## The program -/

/-- The constant `dataDir`. -/
def dataDir : Str := "data/".toList
/-- The constant `pagePrefix`. -/
def pagePrefix : Str := "/p/".toList
/-- The constant `editPrefix`. -/
def editPrefix : Str := "/e/".toList
/-- The constant `savePrefix`. -/
def savePrefix : Str := "/s/".toList

/-- The class `[a-zA-Z0-9]`. -/
def alnumClass : Regex := Regex.cls [('a', 'z'), ('A', 'Z'), ('0', '9')]

/-- The pattern `validPath`: `^(/p/|/e/|/s/)([a-zA-Z0-9]+)$`. -/
def validPath : Regex :=
  Regex.seq Regex.bol
    (Regex.seq
      (Regex.group 1
        (Regex.alt (Regex.lit pagePrefix)
          (Regex.alt (Regex.lit editPrefix) (Regex.lit savePrefix))))
      (Regex.seq (Regex.group 2 (Regex.plus alnumClass)) Regex.eol))

/-- The pattern `pageLink`: `@[a-zA-Z0-9]+`. -/
def pageLink : Regex := Regex.seq (Regex.char '@') (Regex.plus alnumClass)

/-- The type `Page`. -/
structure Page where
  Title : Str
  Body : Str
deriving DecidableEq

/-- The anonymous structs handed to the templates. -/
inductive TemplateData where
  /-- the data of `page.html` -/
  | page (Title : Str) (Body : Str) : TemplateData
  /-- the data of `edit.html` -/
  | edit (Action : Str) (Title : Str) (Body : Str) : TemplateData
deriving DecidableEq

/-- A call of the program into the standard library, as far as it is observable
from outside: file access and writes on the `http.ResponseWriter`. -/
inductive Event where
  /-- `ioutil.ReadFile(name)` -/
  | readFile (name : Str) : Event
  /-- `ioutil.WriteFile(name, data, perm)` -/
  | writeFile (name : Str) (data : Str) (perm : Nat) : Event
  /-- `http.NotFound(w, r)`: status 404 -/
  | notFound : Event
  /-- `http.Redirect(w, r, url, code)` -/
  | redirect (url : Str) (code : Nat) : Event
  /-- `http.Error(w, msg, code)` -/
  | error (msg : Str) (code : Nat) : Event
  /-- `templates.ExecuteTemplate(w, name, data)` -/
  | executeTemplate (name : Str) (data : TemplateData) : Event
deriving DecidableEq

/-- The environment of a request: the file store as a map from file name to
contents, the faults the operating system and the template engine may raise
(each with its error text), and the trace of library calls so far. -/
structure World where
  files : Str → Option Str
  readErr : Str → Option Str
  writeErr : Str → Option Str
  tmplErr : Str → TemplateData → Option Str
  trace : List Event

/-- The part of `*http.Request` the program reads: `URL.Path` and the form. -/
structure Request where
  path : Str
  form : List (Str × Str)

/-- `r.FormValue(key)`: the first value of the key, or the empty string. -/
def Request.FormValue (r : Request) (key : Str) : Str :=
  (r.form.lookup key).getD []

/-- `http.StatusFound`. -/
def StatusFound : Nat := 302
/-- `http.StatusInternalServerError`. -/
def StatusInternalServerError : Nat := 500

/-- Appends a library call to the trace. -/
def World.emit (σ : World) (e : Event) : World :=
  { σ with trace := σ.trace ++ [e] }

/-- `ioutil.ReadFile`: fails on a read fault or when the file is absent. -/
def ReadFile (name : Str) (σ : World) : Except Str Str × World :=
  let σ1 := σ.emit (Event.readFile name)
  match σ.readErr name with
  | some e => (Except.error e, σ1)
  | none =>
    match σ.files name with
    | some data => (Except.ok data, σ1)
    | none => (Except.error ("open ".toList ++ name ++ ": no such file or directory".toList), σ1)

/-- `ioutil.WriteFile`: fails on a write fault, otherwise creates or replaces
the file. The result is the error, if any; a failed write is taken to leave the
store as it was. -/
def WriteFile (name : Str) (data : Str) (perm : Nat) (σ : World) : Option Str × World :=
  let σ1 := σ.emit (Event.writeFile name data perm)
  match σ.writeErr name with
  | some e => (some e, σ1)
  | none => (none, { σ1 with files := fun n => if n = name then some data else σ1.files n })

/-- The method `(*Page).save`. -/
def Page.save (p : Page) (σ : World) : Option Str × World :=
  let filename := dataDir ++ p.Title ++ ".txt".toList
  WriteFile filename p.Body 0o600 σ

/-- The function `loadPage`. -/
def loadPage (title : Str) (σ : World) : Except Str Page × World :=
  let filename := dataDir ++ title ++ ".txt".toList
  match ReadFile filename σ with
  | (Except.error err, σ1) => (Except.error err, σ1)
  | (Except.ok body, σ1) => (Except.ok { Title := title, Body := body }, σ1)

/-- The function `renderTemplate`. -/
def renderTemplate (name : Str) (data : TemplateData) (σ : World) : World :=
  let σ1 := σ.emit (Event.executeTemplate name data)
  match σ.tmplErr name data with
  | some err => σ1.emit (Event.error err StatusInternalServerError)
  | none => σ1

/-- The closure passed to `ReplaceAllFunc`: `<a href="%s">%s</a>` of the match
without its leading `@`. -/
def linkRepl («match» : Str) : Str :=
  let linkTitle := «match».drop 1
  "<a href=\"".toList ++ linkTitle ++ "\">".toList ++ linkTitle ++ "</a>".toList

/-- The value `body` of `handlePageRequest`: the page body with links. -/
def renderLinks (body : Str) : Str :=
  pageLink.ReplaceAllFunc body linkRepl

/-- The value `html` of `handlePageRequest`. -/
def renderHtml (body : Str) : Str :=
  stringsReplaceAll (renderLinks body) "\n".toList "<br>".toList

/-- The function `handlePageRequest`. -/
def handlePageRequest (_r : Request) (title : Str) (σ : World) : World :=
  match loadPage title σ with
  | (Except.error _, σ1) => σ1.emit (Event.redirect (editPrefix ++ title) StatusFound)
  | (Except.ok p, σ1) =>
    let body := pageLink.ReplaceAllFunc p.Body linkRepl
    let html := stringsReplaceAll body "\n".toList "<br>".toList
    renderTemplate "page.html".toList (TemplateData.page title html) σ1

/-- The function `handleEditRequest`. -/
def handleEditRequest (_r : Request) (title : Str) (σ : World) : World :=
  match loadPage title σ with
  | (Except.error _, σ1) =>
    let p : Page := { Title := title, Body := [] }
    renderTemplate "edit.html".toList (TemplateData.edit "Creating".toList p.Title p.Body) σ1
  | (Except.ok p, σ1) =>
    renderTemplate "edit.html".toList (TemplateData.edit "Editing".toList p.Title p.Body) σ1

/-- The function `handleSaveRequest`. -/
def handleSaveRequest (r : Request) (title : Str) (σ : World) : World :=
  let body := r.FormValue "body".toList
  let p : Page := { Title := title, Body := body }
  match p.save σ with
  | (some err, σ1) => σ1.emit (Event.error err StatusInternalServerError)
  | (none, σ1) => σ1.emit (Event.redirect (pagePrefix ++ title) StatusFound)

/-- The function `getTitle`, on the request path. -/
def getTitle (path : Str) : Except Str Str :=
  match validPath.FindStringSubmatch path with
  | none => Except.error "invalid page title".toList
  | some m => Except.ok (m.getD 2 [])

/-- The function `makeHandler`. -/
def makeHandler (fn : Request → Str → World → World) (r : Request) (σ : World) : World :=
  match getTitle r.path with
  | Except.error _ => σ.emit Event.notFound
  | Except.ok title => fn r title σ

/-! ## Auxiliary definitions: closed forms, the vocabulary of the properties, sample worlds -/

/-- The threads left by `[..]+` on the text `rest`: one per non-empty prefix of
the leading run of class members, longest first. -/
def clsStates (ranges : List (Char × Char)) (caps : List (Nat × (Nat × Nat))) :
    Nat → Str → List MState
  | _, [] => []
  | pos, c :: cs =>
    if inClass ranges c then
      clsStates ranges caps (pos + 1) cs ++ [{ pos := pos + 1, rest := cs, caps := caps }]
    else []

/-- The decision `validPath` takes on a path, in closed form. -/
def hasRoutePrefix (path : Str) : Bool :=
  pagePrefix.isPrefixOf path || editPrefix.isPrefixOf path || savePrefix.isPrefixOf path

/-- The shape of an accepted path: one of the three route prefixes followed by a
non-empty title of ASCII letters and digits. -/
def IsRoutePath (path t : Str) : Prop :=
  ∃ p : Str, (p = "/p/".toList ∨ p = "/e/".toList ∨ p = "/s/".toList) ∧
    path = p ++ t ∧ t ≠ [] ∧ ∀ c ∈ t, c.isAlphanum = true

/-- The anchor element of a link title: `<a href="w">w</a>`. -/
def anchor (w : Str) : Str :=
  "<a href=\"".toList ++ w ++ "\">".toList ++ w ++ "</a>".toList

/-- The link substitution as a left-to-right scan: an `@` directly followed by a
letter or digit starts a token, which is the `@` and the longest run `w` of
letters and digits after it and is replaced by `anchor w`; every other symbol is
copied. `inToken` holds while the scan is inside the run of the token just
replaced. -/
def linkScan : Bool → Str → Str
  | _, [] => []
  | inToken, c :: cs =>
    if inToken && c.isAlphanum then linkScan true cs
    else if c = '@' ∧ cs.takeWhile Char.isAlphanum ≠ [] then
      anchor (cs.takeWhile Char.isAlphanum) ++ linkScan true cs
    else c :: linkScan false cs

/-- The replacement of one symbol by `strings.ReplaceAll(_, "\n", "<br>")`. -/
def brOf (c : Char) : Str := if c = '\n' then "<br>".toList else [c]

/-- Number of occurrences of `pat` in a text: the number of indices at which
`pat` starts. -/
def countOcc (pat : Str) : Str → Nat
  | [] => if pat.isPrefixOf [] then 1 else 0
  | c :: cs => (if pat.isPrefixOf (c :: cs) then 1 else 0) + countOcc pat cs

/-- The name of the file that holds the page of a title: `data/<title>.txt`. -/
def fileName (t : Str) : Str := "data/".toList ++ t ++ ".txt".toList

/-- What `renderTemplate` writes after `ExecuteTemplate`: the 500 response when
the template engine fails, nothing otherwise. -/
def tmplTail (σ : World) (name : Str) (data : TemplateData) : List Event :=
  match σ.tmplErr name data with
  | some err => [Event.error err 500]
  | none => []

/-- The file a library call touches, if it is a file access. -/
def Event.file : Event → Option Str
  | Event.readFile name => some name
  | Event.writeFile name _ _ => some name
  | _ => none

/-- A world with no files and no faults. -/
def World.blank : World :=
  { files := fun _ => none, readErr := fun _ => none, writeErr := fun _ => none,
    tmplErr := fun _ _ => none, trace := [] }

/-- A world in which the page file of `x` exists with body `hi` and cannot be
read (for instance, its mode denies reading). -/
def World.unreadable : World :=
  { files := fun n => if n = "data/x.txt".toList then some "hi".toList else none,
    readErr := fun n =>
      if n = "data/x.txt".toList then some "open data/x.txt: permission denied".toList
      else none,
    writeErr := fun _ => none, tmplErr := fun _ _ => none, trace := [] }

/-- A world in which every write fails. -/
def World.readOnly : World :=
  { files := fun _ => none, readErr := fun _ => none,
    writeErr := fun _ => some "read-only file system".toList,
    tmplErr := fun _ _ => none, trace := [] }

/-! ## Lemmas on the matcher and on the handlers -/

theorem inClass_alnum (c : Char) :
    inClass [('a', 'z'), ('A', 'Z'), ('0', '9')] c = c.isAlphanum := by
  simp only [inClass, List.any_cons, List.any_nil, Char.isAlphanum, Char.isAlpha, Char.isUpper,
    Char.isLower, Char.isDigit, Bool.or_false]
  rw [Bool.eq_iff_iff]
  simp only [Bool.or_eq_true, Bool.and_eq_true, decide_eq_true_eq, Char.le_def, ge_iff_le]
  have h1 : ('a' : Char).val = 97 := rfl
  have h2 : ('z' : Char).val = 122 := rfl
  have h3 : ('A' : Char).val = 65 := rfl
  have h4 : ('Z' : Char).val = 90 := rfl
  have h5 : ('0' : Char).val = 48 := rfl
  have h6 : ('9' : Char).val = 57 := rfl
  rw [h1, h2, h3, h4, h5, h6]
  tauto

theorem run_cls_cons (ranges : List (Char × Char)) (pos : Nat) (c : Char) (cs : Str)
    (caps : List (Nat × (Nat × Nat))) :
    (Regex.cls ranges).run { pos := pos, rest := c :: cs, caps := caps }
      = if inClass ranges c then [{ pos := pos + 1, rest := cs, caps := caps }] else [] := rfl

theorem run_cls_nil (ranges : List (Char × Char)) (pos : Nat)
    (caps : List (Nat × (Nat × Nat))) :
    (Regex.cls ranges).run { pos := pos, rest := [], caps := caps } = [] := rfl

theorem plusLoop_cls (ranges : List (Char × Char)) (caps : List (Nat × (Nat × Nat))) :
    ∀ (fuel : Nat) (rest : Str) (pos : Nat), rest.length < fuel →
      plusLoop (Regex.cls ranges).run fuel { pos := pos, rest := rest, caps := caps }
        = clsStates ranges caps pos rest := by
  intro fuel
  induction fuel with
  | zero => intro rest pos h; omega
  | succ n ih =>
    intro rest pos h
    cases rest with
    | nil => simp [plusLoop, run_cls_nil, clsStates]
    | cons c cs =>
      by_cases hc : inClass ranges c = true
      · have hlen : cs.length < n := by simp at h; omega
        simp [plusLoop, run_cls_cons, clsStates, hc, ih cs (pos + 1) hlen]
      · simp [plusLoop, run_cls_cons, clsStates, hc]

theorem run_plus_cls (ranges : List (Char × Char)) (s : MState) :
    (Regex.plus (Regex.cls ranges)).run s = clsStates ranges s.caps s.pos s.rest := by
  cases s with
  | mk pos rest caps => exact plusLoop_cls ranges caps _ rest pos (Nat.lt_succ_self _)

theorem run_lit (pre : Str) : ∀ (pos : Nat) (rest : Str) (caps : List (Nat × (Nat × Nat))),
    (Regex.lit pre).run { pos := pos, rest := rest, caps := caps }
      = if pre.isPrefixOf rest then
          [{ pos := pos + pre.length, rest := rest.drop pre.length, caps := caps }]
        else [] := by
  induction pre with
  | nil => intro pos rest caps; simp [Regex.lit, Regex.run]
  | cons c cs ih =>
    intro pos rest caps
    cases rest with
    | nil => simp [Regex.lit, Regex.run]
    | cons x xs =>
      by_cases hx : x = c
      · subst hx
        simp only [Regex.lit, Regex.run, if_true, List.flatMap_cons, List.flatMap_nil,
          List.append_nil, ih, List.isPrefixOf, beq_self_eq_true, Bool.true_and, List.length_cons,
          List.drop_succ_cons]
        split <;> simp [Nat.add_assoc, Nat.add_comm 1]
      · have hx2 : ¬ c = x := fun h => hx h.symm
        simp [Regex.lit, Regex.run, hx, hx2, List.isPrefixOf]

theorem run_eol (s : MState) : Regex.eol.run s = if s.rest = [] then [s] else [] := rfl

theorem clsStates_eol (ranges : List (Char × Char)) (caps : List (Nat × (Nat × Nat)))
    (n p0 : Nat) : ∀ (t : Str) (pos : Nat),
    ((clsStates ranges caps pos t).map
        fun s1 => { s1 with caps := (n, (p0, s1.pos)) :: s1.caps }).flatMap Regex.eol.run
      = if t ≠ [] ∧ t.all (inClass ranges) = true then
          [{ pos := pos + t.length, rest := [], caps := (n, (p0, pos + t.length)) :: caps }]
        else [] := by
  intro t
  induction t with
  | nil => intro pos; simp [clsStates]
  | cons c cs ih =>
    intro pos
    by_cases hc : inClass ranges c = true
    · simp only [clsStates, hc, if_true, List.map_append, List.flatMap_append, ih (pos + 1),
        List.map_cons, List.map_nil, List.flatMap_cons, List.flatMap_nil, run_eol,
        List.append_nil, List.all_cons, Bool.true_and, ne_eq, not_false_eq_true, true_and,
        List.length_cons, reduceCtorEq]
      cases cs with
      | nil => simp
      | cons d ds => simp [Nat.add_assoc, Nat.add_comm 1]
    · simp [clsStates, hc]

theorem run_titleTail (pos : Nat) (t : Str) (caps : List (Nat × (Nat × Nat))) :
    (Regex.seq (Regex.group 2 (Regex.plus alnumClass)) Regex.eol).run
        { pos := pos, rest := t, caps := caps }
      = if t ≠ [] ∧ t.all Char.isAlphanum = true then
          [{ pos := pos + t.length, rest := [], caps := (2, (pos, pos + t.length)) :: caps }]
        else [] := by
  have h := clsStates_eol [('a', 'z'), ('A', 'Z'), ('0', '9')] caps 2 pos t pos
  have hfun : inClass [('a', 'z'), ('A', 'Z'), ('0', '9')] = Char.isAlphanum :=
    funext inClass_alnum
  rw [hfun] at h
  rw [← h]
  show (((Regex.plus alnumClass).run { pos := pos, rest := t, caps := caps }).map _).flatMap _ = _
  rw [alnumClass, run_plus_cls]

theorem validPath_run_pos (pos : Nat) (rest : Str) (h : pos ≠ 0) :
    validPath.run { pos := pos, rest := rest, caps := [] } = [] := by
  simp [validPath, Regex.run, h]

theorem validPath_search_pos : ∀ (rest : Str) (pos : Nat), pos ≠ 0 →
    validPath.search pos rest = none := by
  intro rest
  induction rest with
  | nil => intro pos h; simp [Regex.search, Regex.matchHere, validPath_run_pos pos [] h]
  | cons c cs ih =>
    intro pos h
    simp [Regex.search, Regex.matchHere, validPath_run_pos pos (c :: cs) h, ih (pos + 1)]

theorem validPath_search_zero (path : Str) :
    validPath.search 0 path = (validPath.matchHere 0 path).map fun s => (0, s) := by
  cases path with
  | nil => rfl
  | cons c cs =>
    simp only [Regex.search]
    cases h : validPath.matchHere 0 (c :: cs) with
    | none => simp [validPath_search_pos cs 1 (by decide)]
    | some s => simp

theorem validPath_matchHere (path : Str) :
    validPath.matchHere 0 path
      = if hasRoutePrefix path = true ∧ path.drop 3 ≠ [] ∧ (path.drop 3).all Char.isAlphanum = true
        then some { pos := 3 + (path.drop 3).length, rest := [],
                    caps := [(2, (3, 3 + (path.drop 3).length)), (1, (0, 3))] }
        else none := by
  have hseq : validPath.run { pos := 0, rest := path, caps := [] }
      = (((Regex.lit pagePrefix).run { pos := 0, rest := path, caps := [] }
          ++ ((Regex.lit editPrefix).run { pos := 0, rest := path, caps := [] }
          ++ (Regex.lit savePrefix).run { pos := 0, rest := path, caps := [] })).map
            fun s1 => { s1 with caps := (1, ((0 : Nat), s1.pos)) :: s1.caps }).flatMap
          (Regex.seq (Regex.group 2 (Regex.plus alnumClass)) Regex.eol).run := by
    simp [validPath, Regex.run]
  unfold Regex.matchHere
  rw [hseq, run_lit, run_lit, run_lit]
  have l1 : pagePrefix.length = 3 := rfl
  have l2 : editPrefix.length = 3 := rfl
  have l3 : savePrefix.length = 3 := rfl
  rw [l1, l2, l3]
  unfold hasRoutePrefix
  by_cases hT : path.drop 3 ≠ [] ∧ (path.drop 3).all Char.isAlphanum = true
  · by_cases h1 : pagePrefix.isPrefixOf path = true <;>
    by_cases h2 : editPrefix.isPrefixOf path = true <;>
    by_cases h3 : savePrefix.isPrefixOf path = true <;>
    simp [h1, h2, h3, hT, run_titleTail]
  · by_cases h1 : pagePrefix.isPrefixOf path = true <;>
    by_cases h2 : editPrefix.isPrefixOf path = true <;>
    by_cases h3 : savePrefix.isPrefixOf path = true <;>
    simp [h1, h2, h3, hT, run_titleTail] <;> split <;> rfl

theorem getTitle_eq (path : Str) :
    getTitle path
      = if hasRoutePrefix path = true ∧ path.drop 3 ≠ [] ∧ (path.drop 3).all Char.isAlphanum = true
        then Except.ok (path.drop 3)
        else Except.error "invalid page title".toList := by
  unfold getTitle Regex.FindStringSubmatch
  rw [validPath_search_zero, validPath_matchHere]
  split_ifs with h
  · have hn : validPath.numSubexp = 2 := rfl
    simp only [Option.map_some', hn]
    simp [List.range_succ, groupText, List.lookup, slice]
  · simp

theorem isPrefixOf_split (p s : Str) (h : p.isPrefixOf s = true) :
    s = p ++ s.drop p.length := by
  have h2 : p <+: s := List.isPrefixOf_iff_prefix.mp h
  obtain ⟨t, rfl⟩ := h2
  simp

theorem getTitle_ok_iff (path t : Str) :
    getTitle path = Except.ok t ↔ IsRoutePath path t := by
  rw [getTitle_eq]
  constructor
  · intro h
    split_ifs at h with hc
    · obtain ⟨hp, hne, hall⟩ := hc
      have ht : path.drop 3 = t := by injection h
      subst ht
      unfold hasRoutePrefix at hp
      simp only [Bool.or_eq_true] at hp
      rcases hp with (hp | hp) | hp
      · exact ⟨"/p/".toList, Or.inl rfl, isPrefixOf_split _ _ hp, hne, by simpa using hall⟩
      · exact ⟨"/e/".toList, Or.inr (Or.inl rfl), isPrefixOf_split _ _ hp, hne,
          by simpa using hall⟩
      · exact ⟨"/s/".toList, Or.inr (Or.inr rfl), isPrefixOf_split _ _ hp, hne,
          by simpa using hall⟩
  · rintro ⟨p, hp, rfl, hne, hall⟩
    have hd : (p ++ t).drop 3 = t := by
      rcases hp with rfl | rfl | rfl <;> rfl
    have hpre : hasRoutePrefix (p ++ t) = true := by
      rcases hp with rfl | rfl | rfl <;> simp [hasRoutePrefix, pagePrefix, editPrefix, savePrefix]
    rw [hd, if_pos ⟨hpre, hne, by simpa using hall⟩]

theorem getTitle_error_of_not (path : Str) (h : ∀ t, ¬ IsRoutePath path t) :
    getTitle path = Except.error "invalid page title".toList := by
  cases hg : getTitle path with
  | ok t => exact absurd ((getTitle_ok_iff path t).mp hg) (h t)
  | error e =>
    rw [getTitle_eq] at hg
    split_ifs at hg
    exact hg.symm

theorem takeWhile_nil_dropWhile (p : Char → Bool) :
    ∀ cs : Str, cs.takeWhile p = [] → cs.dropWhile p = cs := by
  intro cs h
  cases cs with
  | nil => rfl
  | cons c cs =>
    by_cases hc : p c = true
    · simp [List.takeWhile, hc] at h
    · simp [List.dropWhile, hc]

theorem clsStates_head (ranges : List (Char × Char)) (caps : List (Nat × (Nat × Nat))) :
    ∀ (cs : Str) (pos : Nat),
      (clsStates ranges caps pos cs).head?
        = if cs.takeWhile (inClass ranges) = [] then none
          else some { pos := pos + (cs.takeWhile (inClass ranges)).length,
                      rest := cs.dropWhile (inClass ranges), caps := caps } := by
  intro cs
  induction cs with
  | nil => intro pos; simp [clsStates]
  | cons c cs ih =>
    intro pos
    by_cases hc : inClass ranges c = true
    · simp only [clsStates, hc, if_true, List.head?_append, ih (pos + 1), List.takeWhile_cons,
        List.dropWhile_cons, List.length_cons, List.head?_cons, reduceCtorEq, if_false]
      by_cases ht : cs.takeWhile (inClass ranges) = []
      · simp [ht, takeWhile_nil_dropWhile _ cs ht]
      · simp [ht, Nat.add_assoc, Nat.add_comm 1]
    · simp [clsStates, hc, List.takeWhile_cons]

theorem pageLink_matchHere_nil (p : Nat) : pageLink.matchHere p [] = none := rfl

theorem pageLink_matchHere_cons (p : Nat) (c : Char) (cs : Str) :
    pageLink.matchHere p (c :: cs)
      = if c = '@' ∧ cs.takeWhile Char.isAlphanum ≠ [] then
          some { pos := p + 1 + (cs.takeWhile Char.isAlphanum).length,
                 rest := cs.dropWhile Char.isAlphanum, caps := [] }
        else none := by
  have hfun : inClass [('a', 'z'), ('A', 'Z'), ('0', '9')] = Char.isAlphanum :=
    funext inClass_alnum
  have hrun : pageLink.run { pos := p, rest := c :: cs, caps := [] }
      = if c = '@' then clsStates [('a', 'z'), ('A', 'Z'), ('0', '9')] [] (p + 1) cs else [] := by
    have hseq : pageLink.run { pos := p, rest := c :: cs, caps := [] }
        = ((Regex.char '@').run { pos := p, rest := c :: cs, caps := [] }).flatMap
            (Regex.plus (Regex.cls [('a', 'z'), ('A', 'Z'), ('0', '9')])).run := rfl
    have hchar : (Regex.char '@').run { pos := p, rest := c :: cs, caps := [] }
        = if c = '@' then [{ pos := p + 1, rest := cs, caps := [] }] else [] := rfl
    rw [hseq, hchar]
    by_cases hc : c = '@'
    · simp [hc, run_plus_cls]
    · simp [hc]
  unfold Regex.matchHere
  rw [hrun]
  by_cases hc : c = '@'
  · simp only [hc, if_true, clsStates_head, hfun, true_and]
    split_ifs <;> simp_all
  · simp [hc]

theorem linkScan_true (cs : Str) :
    linkScan true cs = linkScan false (cs.dropWhile Char.isAlphanum) := by
  induction cs with
  | nil => rfl
  | cons c cs ih =>
    by_cases hc : c.isAlphanum = true
    · simp [linkScan, hc, ih, List.dropWhile_cons]
    · simp [linkScan, hc, List.dropWhile_cons]

theorem pageLink_search_spec : ∀ (rest : Str) (p : Nat),
    (pageLink.search p rest = none → linkScan false rest = rest) ∧
    (∀ a0 st, pageLink.search p rest = some (a0, st) →
      ∃ skip w : Str, rest = skip ++ '@' :: w ++ st.rest ∧ a0 = p + skip.length ∧
        st.pos = a0 + 1 + w.length ∧ w ≠ [] ∧
        linkScan false rest = skip ++ anchor w ++ linkScan false st.rest) := by
  intro rest
  induction rest with
  | nil =>
    intro p
    refine ⟨fun _ => rfl, ?_⟩
    intro a0 st h
    simp [Regex.search, pageLink_matchHere_nil] at h
  | cons c cs ih =>
    intro p
    by_cases hc : c = '@' ∧ cs.takeWhile Char.isAlphanum ≠ []
    · have hs : pageLink.search p (c :: cs)
          = some (p, { pos := p + 1 + (cs.takeWhile Char.isAlphanum).length,
                       rest := cs.dropWhile Char.isAlphanum, caps := [] }) := by
        simp only [Regex.search, pageLink_matchHere_cons, if_pos hc]
      refine ⟨fun h => (by rw [hs] at h; cases h), ?_⟩
      intro a0 st h
      rw [hs] at h
      injection h with h
      injection h with h1 h2
      subst h1; subst h2
      refine ⟨[], cs.takeWhile Char.isAlphanum, ?_, rfl, rfl, hc.2, ?_⟩
      · simp [hc.1, List.takeWhile_append_dropWhile]
      · simp only [linkScan, Bool.false_and, Bool.false_eq_true, if_false, if_pos hc,
          linkScan_true, List.nil_append]
    · have hs : pageLink.search p (c :: cs) = pageLink.search (p + 1) cs := by
        simp only [Regex.search, pageLink_matchHere_cons, if_neg hc]
      have hl : linkScan false (c :: cs) = c :: linkScan false cs := by
        simp only [linkScan, Bool.false_and, Bool.false_eq_true, if_false, if_neg hc]
      rw [hs, hl]
      obtain ⟨ih1, ih2⟩ := ih (p + 1)
      refine ⟨fun h => (by rw [ih1 h]), ?_⟩
      intro a0 st h
      obtain ⟨skip, w, h1, h2, h3, h4, h5⟩ := ih2 a0 st h
      refine ⟨c :: skip, w, ?_, ?_, h3, h4, ?_⟩
      · rw [h1]; simp
      · rw [h2]; simp; omega
      · rw [h5]; simp

theorem linkRepl_token (w : Str) : linkRepl ('@' :: w) = anchor w := rfl

theorem replaceAllLoop_pageLink : ∀ (fuel : Nat) (pre rest buf : Str), rest.length < fuel →
    replaceAllLoop pageLink (pre ++ rest) linkRepl fuel pre.length pre.length buf
      = buf ++ linkScan false rest := by
  intro fuel
  induction fuel with
  | zero => intro pre rest buf h; omega
  | succ n ih =>
    intro pre rest buf h
    have hdrop : (pre ++ rest).drop pre.length = rest := by simp
    have hlen : ¬ (pre ++ rest).length < pre.length := by simp
    obtain ⟨hnone, hsome⟩ := pageLink_search_spec rest pre.length
    unfold replaceAllLoop
    rw [if_neg hlen, hdrop]
    cases hs : pageLink.search pre.length rest with
    | none => simp [hnone hs]
    | some res =>
      obtain ⟨a0, st⟩ := res
      obtain ⟨skip, w, h1, h2, h3, h4, h5⟩ := hsome a0 st hs
      have hsl1 : slice (pre ++ rest) pre.length a0 = skip := by
        simp [slice, h2, h1]
      have hsl2 : slice (pre ++ rest) a0 st.pos = '@' :: w := by
        have e : pre ++ rest = (pre ++ skip) ++ (('@' :: w) ++ st.rest) := by
          rw [h1]; simp
        have e2 : a0 = (pre ++ skip).length := by rw [h2]; simp
        have e3 : st.pos - a0 = ('@' :: w).length := by rw [h3]; simp; omega
        rw [slice, e3, e, e2, List.drop_left, List.take_left]
      have hcond : pre.length < st.pos ∨ a0 = 0 := Or.inl (by omega)
      have hrest : pre.length < (pre ++ rest).length := by
        rw [h1]; simp
      have hsrc : pre ++ rest = (pre ++ skip ++ '@' :: w) ++ st.rest := by
        rw [h1]; simp
      have hpos : st.pos = (pre ++ skip ++ '@' :: w).length := by
        rw [h3, h2]; simp; omega
      have hfuel : st.rest.length < n := by
        have : rest.length = skip.length + (1 + w.length) + st.rest.length := by
          rw [h1]; simp; omega
        omega
      simp only [hsl1, hsl2, if_pos hcond, if_pos hrest, linkRepl_token]
      have hnot1 : ¬ st.pos < pre.length + 1 := by omega
      rw [if_neg hnot1, if_neg hnot1]
      rw [hsrc, hpos, ih _ _ _ hfuel, h5]
      simp

theorem renderLinks_eq_linkScan (body : Str) : renderLinks body = linkScan false body := by
  have h := replaceAllLoop_pageLink (body.length + 1) [] body [] (Nat.lt_succ_self _)
  simpa [renderLinks, Regex.ReplaceAllFunc] using h

theorem linkScan_copy (b : Bool) (c : Char) (cs : Str) (hb : b = true → c.isAlphanum = false)
    (h : ¬ (c = '@' ∧ ∃ d, cs.head? = some d ∧ d.isAlphanum = true)) :
    linkScan b (c :: cs) = c :: linkScan false cs := by
  have h1 : ¬ ((b && c.isAlphanum) = true) := by
    cases b with
    | false => simp
    | true => simp [hb rfl]
  have h2 : ¬ (c = '@' ∧ cs.takeWhile Char.isAlphanum ≠ []) := by
    rintro ⟨hc, ht⟩
    apply h
    refine ⟨hc, ?_⟩
    cases cs with
    | nil => simp at ht
    | cons d ds =>
      refine ⟨d, rfl, ?_⟩
      by_contra hd
      simp [List.takeWhile_cons, hd] at ht
  simp only [linkScan, if_neg h1, if_neg h2]

theorem takeWhile_run (w rest : Str) (hw : ∀ c ∈ w, c.isAlphanum = true)
    (hr : ∀ d, rest.head? = some d → d.isAlphanum = false) :
    (w ++ rest).takeWhile Char.isAlphanum = w ∧ (w ++ rest).dropWhile Char.isAlphanum = rest := by
  induction w with
  | nil =>
    cases rest with
    | nil => simp
    | cons d ds => simp [List.takeWhile_cons, List.dropWhile_cons, hr d rfl]
  | cons c cs ih =>
    have hc : c.isAlphanum = true := hw c (List.mem_cons_self _ _)
    have ih2 := ih (fun x hx => hw x (List.mem_cons_of_mem _ hx))
    simp [List.takeWhile_cons, List.dropWhile_cons, hc, ih2.1, ih2.2]

theorem linkScan_token (b : Bool) (w rest : Str) (hw : w ≠ []) (hall : ∀ c ∈ w, c.isAlphanum = true)
    (hr : ∀ d, rest.head? = some d → d.isAlphanum = false) :
    linkScan b ('@' :: (w ++ rest)) = anchor w ++ linkScan false rest := by
  obtain ⟨ht, hd⟩ := takeWhile_run w rest hall hr
  have h1 : ¬ ((b && ('@' : Char).isAlphanum) = true) := by
    have : ('@' : Char).isAlphanum = false := by decide
    simp [this]
  have h2 : ('@' : Char) = '@' ∧ (w ++ rest).takeWhile Char.isAlphanum ≠ [] := ⟨rfl, by rw [ht]; exact hw⟩
  simp only [linkScan, if_neg h1, linkScan_true]
  rw [ht, hd]
  simp [hw]

theorem replaceGo_single (a : Char) (new : Str) :
    ∀ s : Str, replaceGo [a] new 0 s = s.flatMap fun c => if c = a then new else [c] := by
  intro s
  induction s with
  | nil => rfl
  | cons c cs ih =>
    by_cases hc : c = a
    · subst hc
      simp [replaceGo, List.isPrefixOf, ih]
    · have hc2 : ¬ a = c := fun h => hc h.symm
      simp [replaceGo, List.isPrefixOf, ih, hc, hc2]

theorem renderHtml_eq (body : Str) : renderHtml body = (linkScan false body).flatMap brOf := by
  unfold renderHtml stringsReplaceAll
  rw [renderLinks_eq_linkScan]
  have h2 : "\n".toList = ['\n'] := rfl
  rw [if_neg (by simp), h2, replaceGo_single]
  rfl

theorem takeWhile_append_stop (cs X : Str) (hX : ∀ d, X.head? = some d → d.isAlphanum = false) :
    (cs ++ X).takeWhile Char.isAlphanum = cs.takeWhile Char.isAlphanum := by
  induction cs with
  | nil =>
    cases X with
    | nil => rfl
    | cons d ds => simp [List.takeWhile_cons, hX d rfl]
  | cons c cs ih =>
    by_cases hc : c.isAlphanum = true
    · simp [List.takeWhile_cons, hc, ih]
    · simp [List.takeWhile_cons, hc]

theorem linkScan_append (X : Str) (hX : ∀ d, X.head? = some d → d.isAlphanum = false) :
    ∀ (pre : Str) (b : Bool), linkScan b (pre ++ X) = linkScan b pre ++ linkScan false X := by
  intro pre
  induction pre with
  | nil =>
    intro b
    cases b with
    | false => simp [linkScan]
    | true =>
      cases X with
      | nil => simp [linkScan]
      | cons d ds => simp [linkScan, hX d rfl]
  | cons c cs ih =>
    intro b
    rw [List.cons_append]
    by_cases h1 : (b && c.isAlphanum) = true
    · simp only [linkScan, if_pos h1, ih]
    · by_cases h2 : c = '@' ∧ cs.takeWhile Char.isAlphanum ≠ []
      · have h2a : c = '@' ∧ (cs ++ X).takeWhile Char.isAlphanum ≠ [] := by
          rw [takeWhile_append_stop cs X hX]; exact h2
        simp only [linkScan, if_neg h1, if_pos h2, if_pos h2a, ih,
          takeWhile_append_stop cs X hX, List.append_assoc]
      · have h2a : ¬ (c = '@' ∧ (cs ++ X).takeWhile Char.isAlphanum ≠ []) := by
          rw [takeWhile_append_stop cs X hX]; exact h2
        simp only [linkScan, if_neg h1, if_neg h2, if_neg h2a, ih, List.cons_append]

theorem alnum_ne_newline (c : Char) (h : c.isAlphanum = true) : c ≠ '\n' := by
  rintro rfl
  revert h
  decide

theorem alnum_ne_lt (c : Char) (h : c.isAlphanum = true) : c ≠ '<' := by
  rintro rfl
  revert h
  decide

theorem takeWhile_alnum_mem (cs : Str) : ∀ c ∈ cs.takeWhile Char.isAlphanum, c.isAlphanum = true :=
  fun _ hc => List.mem_takeWhile_imp hc

theorem count_newline_anchor (w : Str) (hw : ∀ c ∈ w, c.isAlphanum = true) :
    (anchor w).count '\n' = 0 := by
  have h0 : w.count '\n' = 0 :=
    List.count_eq_zero.mpr fun hmem => alnum_ne_newline _ (hw _ hmem) rfl
  have e1 : "<a href=\"".toList.count '\n' = 0 := by decide
  have e2 : "\">".toList.count '\n' = 0 := by decide
  have e3 : "</a>".toList.count '\n' = 0 := by decide
  simp only [anchor, List.count_append, h0, e1, e2, e3]

theorem count_newline_linkScan : ∀ (s : Str) (b : Bool),
    (linkScan b s).count '\n' = s.count '\n' := by
  intro s
  induction s with
  | nil => intro b; rfl
  | cons c cs ih =>
    intro b
    by_cases h1 : (b && c.isAlphanum) = true
    · have hc : c ≠ '\n' := alnum_ne_newline c (by simp at h1; exact h1.2)
      simp only [linkScan, if_pos h1, ih]
      rw [List.count_cons_of_ne hc.symm]
    · by_cases h2 : c = '@' ∧ cs.takeWhile Char.isAlphanum ≠ []
      · have hc : c ≠ '\n' := by rw [h2.1]; decide
        simp only [linkScan, if_neg h1, if_pos h2, List.count_append, ih,
          count_newline_anchor _ (takeWhile_alnum_mem cs)]
        rw [List.count_cons_of_ne hc.symm]; simp
      · simp only [linkScan, if_neg h1, if_neg h2, List.count_cons, ih]

theorem br_chars : "<br>".toList = ['<', 'b', 'r', '>'] := rfl

theorem countOcc_br_cons_ne (c : Char) (cs : Str) (h : c ≠ '<') :
    countOcc "<br>".toList (c :: cs) = countOcc "<br>".toList cs := by
  have h2 : ¬ '<' = c := fun e => h e.symm
  simp [countOcc, br_chars, List.isPrefixOf, h2]

theorem countOcc_br_lt (d : Char) (Z : Str) (h : d ≠ 'b') :
    countOcc "<br>".toList ('<' :: d :: Z) = countOcc "<br>".toList (d :: Z) := by
  have h2 : ¬ 'b' = d := fun e => h e.symm
  rw [countOcc]
  simp [br_chars, List.isPrefixOf, h2]

theorem countOcc_br_append (u Y : Str) (hu : ∀ c ∈ u, c ≠ '<') :
    countOcc "<br>".toList (u ++ Y) = countOcc "<br>".toList Y := by
  induction u with
  | nil => rfl
  | cons c cs ih =>
    rw [List.cons_append, countOcc_br_cons_ne _ _ (hu c (List.mem_cons_self _ _))]
    exact ih fun x hx => hu x (List.mem_cons_of_mem _ hx)

theorem countOcc_br_anchor (w Y : Str) (hw : ∀ c ∈ w, c.isAlphanum = true) :
    countOcc "<br>".toList (anchor w ++ Y) = countOcc "<br>".toList Y := by
  have hw2 : ∀ c ∈ w, c ≠ '<' := fun c hc => alnum_ne_lt c (hw c hc)
  have e : anchor w ++ Y
      = '<' :: 'a' :: (" href=\"".toList ++ (w ++ ("\">".toList ++ (w ++
          ('<' :: '/' :: ("a>".toList ++ Y)))))) := by
    simp [anchor]
  rw [e, countOcc_br_lt _ _ (by decide), countOcc_br_cons_ne _ _ (by decide),
    countOcc_br_append _ _ (by decide), countOcc_br_append _ _ hw2,
    countOcc_br_append _ _ (by decide), countOcc_br_append _ _ hw2,
    countOcc_br_lt _ _ (by decide), countOcc_br_cons_ne _ _ (by decide),
    countOcc_br_append _ _ (by decide)]

theorem isPrefixOf_linkScan (p : Str) (h1 : '@' ∉ p) (h2 : '<' ∉ p) :
    ∀ cs : Str, p.isPrefixOf (linkScan false cs) = p.isPrefixOf cs := by
  induction p with
  | nil => intro cs; simp
  | cons x p ih =>
    intro cs
    have hx1 : x ≠ '@' := fun e => h1 (e ▸ List.mem_cons_self _ _)
    have hx2 : x ≠ '<' := fun e => h2 (e ▸ List.mem_cons_self _ _)
    have ih2 := ih (fun hm => h1 (List.mem_cons_of_mem _ hm)) (fun hm => h2 (List.mem_cons_of_mem _ hm))
    cases cs with
    | nil => simp [linkScan]
    | cons y ys =>
      by_cases hy : y = '@' ∧ ys.takeWhile Char.isAlphanum ≠ []
      · have hxy : ¬ x = y := by rw [hy.1]; exact hx1
        have e : ∀ Z : Str, anchor (ys.takeWhile Char.isAlphanum) ++ Z
            = '<' :: ("a href=\"".toList ++ ys.takeWhile Char.isAlphanum ++ "\">".toList
                ++ ys.takeWhile Char.isAlphanum ++ "</a>".toList ++ Z) := by
          intro Z; simp [anchor]
        simp only [linkScan, Bool.false_and, Bool.false_eq_true, if_false, if_pos hy, e]
        have b1 : (x == '<') = false := by simpa using hx2
        have b2 : (x == y) = false := by simpa using hxy
        simp [List.isPrefixOf, b1, b2]
      · simp only [linkScan, Bool.false_and, Bool.false_eq_true, if_false, if_neg hy,
          List.isPrefixOf, ih2]

theorem countOcc_br_linkScan : ∀ (s : Str) (b : Bool),
    countOcc "<br>".toList (linkScan b s) = countOcc "<br>".toList s := by
  intro s
  induction s with
  | nil => intro b; rfl
  | cons c cs ih =>
    intro b
    by_cases h1 : (b && c.isAlphanum) = true
    · have hc : c ≠ '<' := alnum_ne_lt c (by simp at h1; exact h1.2)
      simp only [linkScan, if_pos h1, ih, countOcc_br_cons_ne c cs hc]
    · by_cases h2 : c = '@' ∧ cs.takeWhile Char.isAlphanum ≠ []
      · have hc : c ≠ '<' := by rw [h2.1]; decide
        simp only [linkScan, if_neg h1, if_pos h2, countOcc_br_cons_ne c cs hc,
          countOcc_br_anchor _ _ (takeWhile_alnum_mem cs), ih]
      · simp only [linkScan, if_neg h1, if_neg h2]
        rw [countOcc, countOcc, ih, br_chars]
        have hp := isPrefixOf_linkScan ['b', 'r', '>'] (by decide) (by decide) cs
        simp only [List.isPrefixOf]
        simp only [hp]

theorem isPrefixOf_flatMap_brOf (p : Str) (h1 : '\n' ∉ p) (h2 : '<' ∉ p) :
    ∀ cs : Str, p.isPrefixOf (cs.flatMap brOf) = p.isPrefixOf cs := by
  induction p with
  | nil => intro cs; simp
  | cons x p ih =>
    intro cs
    have hx1 : x ≠ '\n' := fun e => h1 (e ▸ List.mem_cons_self _ _)
    have hx2 : x ≠ '<' := fun e => h2 (e ▸ List.mem_cons_self _ _)
    have ih2 := ih (fun hm => h1 (List.mem_cons_of_mem _ hm)) (fun hm => h2 (List.mem_cons_of_mem _ hm))
    cases cs with
    | nil => simp
    | cons y ys =>
      by_cases hy : y = '\n'
      · subst hy
        have b1 : (x == '<') = false := by simpa using hx2
        simp [List.flatMap_cons, brOf, br_chars, List.isPrefixOf, b1, hx1]
      · have e : (y :: ys).flatMap brOf = y :: ys.flatMap brOf := by
          simp [List.flatMap_cons, brOf, hy]
        rw [e]
        simp only [List.isPrefixOf, ih2]

theorem countOcc_br_flatMap : ∀ s : Str,
    countOcc "<br>".toList (s.flatMap brOf) = s.count '\n' + countOcc "<br>".toList s := by
  intro s
  induction s with
  | nil => rfl
  | cons c cs ih =>
    by_cases hc : c = '\n'
    · subst hc
      have e : ('\n' :: cs).flatMap brOf = '<' :: 'b' :: 'r' :: '>' :: cs.flatMap brOf := by
        simp [List.flatMap_cons, brOf, br_chars]
      rw [e, countOcc_br_cons_ne '\n' cs (by decide), List.count_cons_self, countOcc]
      rw [countOcc_br_cons_ne 'b' _ (by decide), countOcc_br_cons_ne 'r' _ (by decide),
        countOcc_br_cons_ne '>' _ (by decide), ih]
      simp [br_chars, List.isPrefixOf]
      omega
    · have e : (c :: cs).flatMap brOf = c :: cs.flatMap brOf := by
        simp [List.flatMap_cons, brOf, hc]
      have hc2 : ¬ '\n' = c := fun h => hc h.symm
      rw [e, countOcc, countOcc, ih, List.count_cons_of_ne hc2, br_chars]
      have hp := isPrefixOf_flatMap_brOf ['b', 'r', '>'] (by decide) (by decide) cs
      simp only [List.isPrefixOf]
      simp only [hp]
      omega

theorem newline_not_mem_flatMap (s : Str) : '\n' ∉ s.flatMap brOf := by
  intro h
  rw [List.mem_flatMap] at h
  obtain ⟨c, _, hc⟩ := h
  by_cases hn : c = '\n'
  · rw [brOf, if_pos hn] at hc
    revert hc
    decide
  · rw [brOf, if_neg hn] at hc
    simp at hc
    exact hn hc.symm

theorem tmplTail_cases (σ : World) (name : Str) (data : TemplateData) (ev : Event) :
    ev ∈ tmplTail σ name data ↔ ∃ err, σ.tmplErr name data = some err ∧ ev = Event.error err 500 := by
  unfold tmplTail
  split <;> simp_all

theorem renderTemplate_trace (name : Str) (data : TemplateData) (σ : World) :
    (renderTemplate name data σ).trace
      = σ.trace ++ Event.executeTemplate name data :: tmplTail σ name data := by
  unfold renderTemplate tmplTail
  cases σ.tmplErr name data <;> simp [World.emit, StatusInternalServerError]

theorem loadPage_eq (t : Str) (σ : World) :
    loadPage t σ
      = (match σ.readErr (fileName t) with
         | some e => Except.error e
         | none =>
           match σ.files (fileName t) with
           | some data => Except.ok (Page.mk t data)
           | none => Except.error
               ("open ".toList ++ fileName t ++ ": no such file or directory".toList),
         σ.emit (Event.readFile (fileName t))) := by
  have hd : dataDir ++ t ++ ".txt".toList = fileName t := rfl
  simp only [loadPage, ReadFile, hd]
  cases σ.readErr (fileName t) with
  | some e => rfl
  | none => cases σ.files (fileName t) <;> rfl

theorem loadPage_error_iff (t : Str) (σ : World) :
    (∃ e, (loadPage t σ).1 = Except.error e)
      ↔ (σ.files (fileName t) = none ∨ ∃ e, σ.readErr (fileName t) = some e) := by
  rw [loadPage_eq]
  cases h1 : σ.readErr (fileName t) with
  | some e => simp
  | none => cases h2 : σ.files (fileName t) <;> simp

theorem loadPage_ok_iff (t : Str) (σ : World) (p : Page) :
    (loadPage t σ).1 = Except.ok p
      ↔ (σ.readErr (fileName t) = none ∧ σ.files (fileName t) = some p.Body ∧ p.Title = t) := by
  rw [loadPage_eq]
  cases p with
  | mk title body =>
    cases h1 : σ.readErr (fileName t) with
    | some e => simp
    | none =>
      cases h2 : σ.files (fileName t) with
      | none => simp
      | some d =>
        simp only [Except.ok.injEq, Page.mk.injEq, Option.some.injEq, true_and]
        constructor
        · rintro ⟨rfl, rfl⟩; exact ⟨rfl, rfl⟩
        · rintro ⟨rfl, rfl⟩; exact ⟨rfl, rfl⟩

theorem handlePageRequest_trace (r : Request) (t : Str) (σ : World) :
    (handlePageRequest r t σ).trace
      = σ.trace ++ Event.readFile (fileName t) ::
          (match (loadPage t σ).1 with
           | Except.error _ => [Event.redirect ("/e/".toList ++ t) 302]
           | Except.ok p =>
             Event.executeTemplate "page.html".toList (TemplateData.page t (renderHtml p.Body)) ::
               tmplTail σ "page.html".toList (TemplateData.page t (renderHtml p.Body))) := by
  unfold handlePageRequest
  rw [loadPage_eq]
  cases h1 : σ.readErr (fileName t) with
  | some e => simp [World.emit, editPrefix, StatusFound]
  | none =>
    cases h2 : σ.files (fileName t) with
    | none => simp [World.emit, editPrefix, StatusFound]
    | some d =>
      simp only [renderTemplate_trace]
      simp [World.emit, tmplTail, renderHtml, renderLinks]

theorem handleEditRequest_trace (r : Request) (t : Str) (σ : World) :
    (handleEditRequest r t σ).trace
      = σ.trace ++ Event.readFile (fileName t) ::
          (match (loadPage t σ).1 with
           | Except.error _ =>
             Event.executeTemplate "edit.html".toList
                 (TemplateData.edit "Creating".toList t []) ::
               tmplTail σ "edit.html".toList (TemplateData.edit "Creating".toList t [])
           | Except.ok p =>
             Event.executeTemplate "edit.html".toList
                 (TemplateData.edit "Editing".toList t p.Body) ::
               tmplTail σ "edit.html".toList (TemplateData.edit "Editing".toList t p.Body)) := by
  unfold handleEditRequest
  rw [loadPage_eq]
  cases h1 : σ.readErr (fileName t) with
  | some e => simp only [renderTemplate_trace]; simp [World.emit, tmplTail]
  | none =>
    cases h2 : σ.files (fileName t) with
    | none => simp only [renderTemplate_trace]; simp [World.emit, tmplTail]
    | some d => simp only [renderTemplate_trace]; simp [World.emit, tmplTail]

theorem save_eq (p : Page) (σ : World) :
    p.save σ
      = (match σ.writeErr (fileName p.Title) with
         | some e =>
           (some e, σ.emit (Event.writeFile (fileName p.Title) p.Body 0o600))
         | none =>
           (none, { σ.emit (Event.writeFile (fileName p.Title) p.Body 0o600) with
                    files := fun n => if n = fileName p.Title then some p.Body else σ.files n })) := by
  have hd : dataDir ++ p.Title ++ ".txt".toList = fileName p.Title := rfl
  simp only [Page.save, WriteFile, hd]
  cases σ.writeErr (fileName p.Title) <;> rfl

theorem handleSaveRequest_trace (r : Request) (t : Str) (σ : World) :
    (handleSaveRequest r t σ).trace
      = σ.trace ++ Event.writeFile (fileName t) (r.FormValue "body".toList) 0o600 ::
          (match (Page.save { Title := t, Body := r.FormValue "body".toList } σ).1 with
           | some e => [Event.error e 500]
           | none => [Event.redirect ("/p/".toList ++ t) 302]) := by
  unfold handleSaveRequest
  simp only [save_eq]
  cases h1 : σ.writeErr (fileName t) <;>
    simp [World.emit, pagePrefix, StatusFound, StatusInternalServerError]

theorem no_token_linkScan : ∀ body : Str,
    (∀ pre d post, body = pre ++ '@' :: d :: post → d.isAlphanum = false) →
      linkScan false body = body := by
  intro body
  induction body with
  | nil => intro _; rfl
  | cons c cs ih =>
    intro h
    have hc : ¬ (c = '@' ∧ ∃ d, cs.head? = some d ∧ d.isAlphanum = true) := by
      rintro ⟨rfl, d, hd, hal⟩
      cases cs with
      | nil => simp at hd
      | cons e es =>
        simp at hd
        subst hd
        have := h [] e es rfl
        rw [this] at hal
        cases hal
    rw [linkScan_copy false c cs (fun hb => by cases hb) hc]
    rw [ih fun pre d post e => h (c :: pre) d post (by rw [e]; rfl)]

theorem handleSaveRequest_store (r : Request) (t : Str) (σ : World)
    (hsave : (Page.save { Title := t, Body := r.FormValue "body".toList } σ).1 = none) :
    (handleSaveRequest r t σ).files (fileName t) = some (r.FormValue "body".toList) ∧
    (handleSaveRequest r t σ).readErr = σ.readErr ∧
    (handleSaveRequest r t σ).tmplErr = σ.tmplErr := by
  rw [save_eq] at hsave
  unfold handleSaveRequest
  simp only [save_eq]
  cases h1 : σ.writeErr (fileName t) with
  | some e => rw [h1] at hsave; cases hsave
  | none => simp [World.emit]

theorem tmplTail_file (σ : World) (name : Str) (data : TemplateData) (ev : Event)
    (h : ev ∈ tmplTail σ name data) : ev.file = none := by
  obtain ⟨err, _, rfl⟩ := (tmplTail_cases σ name data ev).mp h
  rfl

theorem handler_files (h : Request → Str → World → World)
    (hh : h = handlePageRequest ∨ h = handleEditRequest ∨ h = handleSaveRequest)
    (r : Request) (t : Str) (σ : World) :
    ∃ evs, (h r t σ).trace = σ.trace ++ evs ∧
      ∀ ev ∈ evs, ∀ name, ev.file = some name → name = fileName t := by
  rcases hh with rfl | rfl | rfl
  · refine ⟨_, handlePageRequest_trace r t σ, ?_⟩
    intro ev hev name hname
    rcases List.mem_cons.mp hev with rfl | hev
    · injection hname with e; exact e.symm
    · cases hl : (loadPage t σ).1 with
      | error e =>
        rw [hl] at hev
        simp at hev
        subst hev
        cases hname
      | ok p =>
        rw [hl] at hev
        rcases List.mem_cons.mp hev with rfl | hev
        · cases hname
        · rw [tmplTail_file _ _ _ _ hev] at hname; cases hname
  · refine ⟨_, handleEditRequest_trace r t σ, ?_⟩
    intro ev hev name hname
    rcases List.mem_cons.mp hev with rfl | hev
    · injection hname with e; exact e.symm
    · cases hl : (loadPage t σ).1 with
      | error e =>
        rw [hl] at hev
        rcases List.mem_cons.mp hev with rfl | hev
        · cases hname
        · rw [tmplTail_file _ _ _ _ hev] at hname; cases hname
      | ok p =>
        rw [hl] at hev
        rcases List.mem_cons.mp hev with rfl | hev
        · cases hname
        · rw [tmplTail_file _ _ _ _ hev] at hname; cases hname
  · refine ⟨_, handleSaveRequest_trace r t σ, ?_⟩
    intro ev hev name hname
    rcases List.mem_cons.mp hev with rfl | hev
    · injection hname with e; exact e.symm
    · cases hl : (Page.save { Title := t, Body := r.FormValue "body".toList } σ).1 with
      | some e =>
        rw [hl] at hev
        simp at hev
        subst hev
        cases hname
      | none =>
        rw [hl] at hev
        simp at hev
        subst hev
        cases hname

theorem alnum_not_mem (t : Str) (hall : ∀ c ∈ t, c.isAlphanum = true) (x : Char)
    (hx : x.isAlphanum = false) : x ∉ t := by
  intro hm
  rw [hall x hm] at hx
  cases hx

/-! ## The properties of the specification -/

/-- C1: the router calls the wrapped handler, once and with title `t`, exactly
on the paths `prefix ++ t` with `prefix` one of `/p/`, `/e/`, `/s/` and `t` a
non-empty string of ASCII letters and digits; on every other path the outcome is
the 404 of `http.NotFound`, whatever the handler is. -/
theorem makeHandler_routes (fn : Request → Str → World → World) (r : Request) (σ : World) :
    (∀ t, getTitle r.path = Except.ok t ↔ IsRoutePath r.path t) ∧
    (∀ t, IsRoutePath r.path t → makeHandler fn r σ = fn r t σ) ∧
    ((∀ t, ¬ IsRoutePath r.path t) → makeHandler fn r σ = σ.emit Event.notFound) := by
  refine ⟨fun t => getTitle_ok_iff r.path t, ?_, ?_⟩
  · intro t ht
    simp [makeHandler, (getTitle_ok_iff r.path t).mpr ht]
  · intro h
    simp [makeHandler, getTitle_error_of_not r.path h]

theorem makeHandler_routes_witness :
    (makeHandler handleEditRequest ⟨"/e/Home".toList, []⟩ World.blank
      = handleEditRequest ⟨"/e/Home".toList, []⟩ "Home".toList World.blank) ∧
    (makeHandler handlePageRequest ⟨"/p/bad title!".toList, []⟩ World.blank
      = World.blank.emit Event.notFound) ∧
    (makeHandler handlePageRequest ⟨"/x/foo".toList, []⟩ World.blank
      = World.blank.emit Event.notFound) ∧
    (makeHandler handlePageRequest ⟨"/p/".toList, []⟩ World.blank
      = World.blank.emit Event.notFound) ∧
    (makeHandler handlePageRequest ⟨"/p/a/b".toList, []⟩ World.blank
      = World.blank.emit Event.notFound) ∧
    (makeHandler handlePageRequest ⟨"/p/foo\n".toList, []⟩ World.blank
      = World.blank.emit Event.notFound) :=
  ⟨(makeHandler_routes handleEditRequest ⟨"/e/Home".toList, []⟩ World.blank).2.1 "Home".toList
      ⟨"/e/".toList, Or.inr (Or.inl rfl), rfl, by decide, by decide⟩,
   (makeHandler_routes handlePageRequest ⟨"/p/bad title!".toList, []⟩ World.blank).2.2
      (fun t ht => by
        have h := ((makeHandler_routes handlePageRequest ⟨"/p/bad title!".toList, []⟩
          World.blank).1 t).mpr ht
        cases h),
   (makeHandler_routes handlePageRequest ⟨"/x/foo".toList, []⟩ World.blank).2.2
      (fun t ht => by
        have h := ((makeHandler_routes handlePageRequest ⟨"/x/foo".toList, []⟩
          World.blank).1 t).mpr ht
        cases h),
   (makeHandler_routes handlePageRequest ⟨"/p/".toList, []⟩ World.blank).2.2
      (fun t ht => by
        have h := ((makeHandler_routes handlePageRequest ⟨"/p/".toList, []⟩
          World.blank).1 t).mpr ht
        cases h),
   (makeHandler_routes handlePageRequest ⟨"/p/a/b".toList, []⟩ World.blank).2.2
      (fun t ht => by
        have h := ((makeHandler_routes handlePageRequest ⟨"/p/a/b".toList, []⟩
          World.blank).1 t).mpr ht
        cases h),
   (makeHandler_routes handlePageRequest ⟨"/p/foo\n".toList, []⟩ World.blank).2.2
      (fun t ht => by
        have h := ((makeHandler_routes handlePageRequest ⟨"/p/foo\n".toList, []⟩
          World.blank).1 t).mpr ht
        cases h)⟩

/-- C2: the link substitution of `handlePageRequest` scans the body from left
to right: a token `@w`, with `w` the longest non-empty run of ASCII letters and
digits after the `@`, becomes `<a href="w">w</a>`; any other symbol is copied;
and a body in which no `@` is directly followed by a letter or digit is returned
unchanged. -/
theorem renderLinks_spec :
    renderLinks [] = [] ∧
    (∀ w rest : Str, w ≠ [] → (∀ c ∈ w, c.isAlphanum = true) →
      (∀ d, rest.head? = some d → d.isAlphanum = false) →
      renderLinks ('@' :: (w ++ rest))
        = "<a href=\"".toList ++ w ++ "\">".toList ++ w ++ "</a>".toList ++ renderLinks rest) ∧
    (∀ (c : Char) (rest : Str), ¬ (c = '@' ∧ ∃ d, rest.head? = some d ∧ d.isAlphanum = true) →
      renderLinks (c :: rest) = c :: renderLinks rest) ∧
    (∀ body : Str, (∀ pre d post, body = pre ++ '@' :: d :: post → d.isAlphanum = false) →
      renderLinks body = body) := by
  refine ⟨rfl, ?_, ?_, ?_⟩
  · intro w rest hw hall hr
    rw [renderLinks_eq_linkScan, renderLinks_eq_linkScan, linkScan_token false w rest hw hall hr]
    rfl
  · intro c rest h
    rw [renderLinks_eq_linkScan, renderLinks_eq_linkScan,
      linkScan_copy false c rest (fun hb => by cases hb) h]
  · intro body h
    rw [renderLinks_eq_linkScan, no_token_linkScan body h]

theorem renderLinks_spec_witness :
    renderLinks "@Home x".toList = "<a href=\"Home\">Home</a>".toList ++ renderLinks " x".toList ∧
    renderLinks "a@b".toList = 'a' :: renderLinks "@b".toList ∧
    renderLinks "@".toList = "@".toList :=
  ⟨renderLinks_spec.2.1 "Home".toList " x".toList (by decide) (by decide) (by decide),
   renderLinks_spec.2.2.1 'a' "@b".toList (by decide),
   renderLinks_spec.2.2.2 "@".toList (fun pre d post e => by
     have := congrArg List.length e
     simp at this
     omega)⟩

/-- C3: in a store that is a map from file names to contents (no read fault on
the page file), after a successful `handleSaveRequest` for title `t` with form
body `B`, `loadPage t` returns the page with title `t` and body `B`, and
`handlePageRequest` for `t` renders the page template with title `t` and the
body `B` with links substituted and then newlines replaced by `<br>`. -/
theorem save_then_view (r r2 : Request) (t : Str) (σ : World)
    (hmap : σ.readErr ("data/".toList ++ t ++ ".txt".toList) = none)
    (hsave : (Page.save { Title := t, Body := r.FormValue "body".toList } σ).1 = none) :
    (loadPage t (handleSaveRequest r t σ)).1
      = Except.ok { Title := t, Body := r.FormValue "body".toList } ∧
    (handlePageRequest r2 t (handleSaveRequest r t σ)).trace
      = (handleSaveRequest r t σ).trace ++
          Event.readFile ("data/".toList ++ t ++ ".txt".toList) ::
          Event.executeTemplate "page.html".toList
            (TemplateData.page t
              (stringsReplaceAll (pageLink.ReplaceAllFunc (r.FormValue "body".toList) linkRepl)
                "\n".toList "<br>".toList)) ::
          tmplTail (handleSaveRequest r t σ) "page.html".toList
            (TemplateData.page t
              (stringsReplaceAll (pageLink.ReplaceAllFunc (r.FormValue "body".toList) linkRepl)
                "\n".toList "<br>".toList)) := by
  obtain ⟨hf, hr, _⟩ := handleSaveRequest_store r t σ hsave
  have hp : (loadPage t (handleSaveRequest r t σ)).1
      = Except.ok { Title := t, Body := r.FormValue "body".toList } :=
    (loadPage_ok_iff t _ _).mpr ⟨by rw [hr]; exact hmap, hf, rfl⟩
  refine ⟨hp, ?_⟩
  rw [handlePageRequest_trace, hp]
  rfl

theorem save_then_view_witness :
    (loadPage "x".toList
        (handleSaveRequest ⟨"/s/x".toList, [("body".toList, "a @b\nc".toList)]⟩ "x".toList
          World.blank)).1
      = Except.ok { Title := "x".toList, Body := "a @b\nc".toList } ∧
    Event.executeTemplate "page.html".toList
        (TemplateData.page "x".toList "a <a href=\"b\">b</a><br>c".toList)
      ∈ (handlePageRequest ⟨"/p/x".toList, []⟩ "x".toList
          (handleSaveRequest ⟨"/s/x".toList, [("body".toList, "a @b\nc".toList)]⟩ "x".toList
            World.blank)).trace := by
  have h := save_then_view ⟨"/s/x".toList, [("body".toList, "a @b\nc".toList)]⟩
    ⟨"/p/x".toList, []⟩ "x".toList World.blank rfl rfl
  refine ⟨h.1, ?_⟩
  rw [h.2]
  decide

/-- C4: for a body with `n` newlines and no occurrence of `<br>`, the rendered
HTML has no newline and exactly `n` occurrences of `<br>`, one in the place of
each newline; the link substitution keeps the number of newlines and creates no
`<br>`. -/
theorem renderHtml_newlines (body : Str) (h : countOcc "<br>".toList body = 0) :
    '\n' ∉ renderHtml body ∧
    countOcc "<br>".toList (renderHtml body) = body.count '\n' ∧
    (renderLinks body).count '\n' = body.count '\n' ∧
    countOcc "<br>".toList (renderLinks body) = 0 ∧
    (∀ pre post : Str, body = pre ++ '\n' :: post →
      renderHtml body = renderHtml pre ++ "<br>".toList ++ renderHtml post) := by
  refine ⟨?_, ?_, ?_, ?_, ?_⟩
  · rw [renderHtml_eq]; exact newline_not_mem_flatMap _
  · rw [renderHtml_eq, countOcc_br_flatMap, count_newline_linkScan, countOcc_br_linkScan, h]
    rfl
  · rw [renderLinks_eq_linkScan, count_newline_linkScan]
  · rw [renderLinks_eq_linkScan, countOcc_br_linkScan, h]
  · intro pre post e
    have hX : ∀ d, ('\n' :: post).head? = some d → d.isAlphanum = false := by
      intro d hd
      simp at hd
      subst hd
      decide
    have hcopy : linkScan false ('\n' :: post) = '\n' :: linkScan false post :=
      linkScan_copy false '\n' post (fun hb => by cases hb) (fun hc => absurd hc.1 (by decide))
    rw [renderHtml_eq, renderHtml_eq, renderHtml_eq, e, linkScan_append _ hX, hcopy]
    simp [List.flatMap_append, List.flatMap_cons, brOf]

theorem renderHtml_newlines_witness :
    countOcc "<br>".toList "a\n@b\n".toList = 0 ∧
    '\n' ∉ renderHtml "a\n@b\n".toList ∧
    countOcc "<br>".toList (renderHtml "a\n@b\n".toList) = "a\n@b\n".toList.count '\n' ∧
    (renderLinks "a\n@b\n".toList).count '\n' = "a\n@b\n".toList.count '\n' ∧
    countOcc "<br>".toList (renderLinks "a\n@b\n".toList) = 0 ∧
    (∀ pre post : Str, "a\n@b\n".toList = pre ++ '\n' :: post →
      renderHtml "a\n@b\n".toList = renderHtml pre ++ "<br>".toList ++ renderHtml post) :=
  ⟨by decide, renderHtml_newlines "a\n@b\n".toList (by decide)⟩

/-- C5, as stated, fails: the body `@Homepage` contains `@Home`, and its
rendering holds the anchor of `Homepage` but no anchor of `Home`. -/
theorem renderHtml_home_counterexample :
    "@Home".toList <:+: "@Homepage".toList ∧
    renderHtml "@Homepage".toList = "<a href=\"Homepage\">Homepage</a>".toList ∧
    ¬ ("<a href=\"Home\">Home</a>".toList <:+: renderHtml "@Homepage".toList) := by
  decide

/-- C5, amended: a body that contains `@Home` not directly followed by an ASCII
letter or digit renders with the anchor `<a href="Home">Home</a>`. -/
theorem renderHtml_home_link (pre post : Str)
    (h : ∀ d, post.head? = some d → d.isAlphanum = false) :
    "<a href=\"Home\">Home</a>".toList <:+: renderHtml (pre ++ "@Home".toList ++ post) := by
  have hX : ∀ d, ('@' :: ("Home".toList ++ post)).head? = some d → d.isAlphanum = false := by
    intro d hd
    simp at hd
    subst hd
    decide
  have e : pre ++ "@Home".toList ++ post = pre ++ '@' :: ("Home".toList ++ post) := by
    simp
  have ht := linkScan_token false "Home".toList post (by decide) (by decide) h
  rw [renderHtml_eq, e, linkScan_append _ hX, ht]
  refine ⟨(linkScan false pre).flatMap brOf, (linkScan false post).flatMap brOf, ?_⟩
  have ha : (anchor "Home".toList).flatMap brOf = "<a href=\"Home\">Home</a>".toList := by
    decide
  rw [List.flatMap_append, List.flatMap_append, ha, List.append_assoc]

theorem renderHtml_home_link_witness :
    (∀ d, ".".toList.head? = some d → d.isAlphanum = false) ∧
    "<a href=\"Home\">Home</a>".toList
      <:+: renderHtml ("see ".toList ++ "@Home".toList ++ ".".toList) :=
  ⟨by decide, renderHtml_home_link "see ".toList ".".toList (by decide)⟩

/-- C6: when `loadPage` fails (the page file is absent or cannot be read) the
view handler answers with a 302 redirect to `/e/<title>` and renders no
template; when `loadPage` succeeds it renders the page template and emits no
redirect. -/
theorem handlePageRequest_redirect (r : Request) (t : Str) (σ : World) :
    ((∃ e, (loadPage t σ).1 = Except.error e)
      ↔ (σ.files ("data/".toList ++ t ++ ".txt".toList) = none
          ∨ ∃ e, σ.readErr ("data/".toList ++ t ++ ".txt".toList) = some e)) ∧
    ((∃ e, (loadPage t σ).1 = Except.error e) →
      (handlePageRequest r t σ).trace
        = σ.trace ++ [Event.readFile ("data/".toList ++ t ++ ".txt".toList),
                      Event.redirect ("/e/".toList ++ t) 302]) ∧
    (∀ p, (loadPage t σ).1 = Except.ok p →
      ∃ evs, (handlePageRequest r t σ).trace = σ.trace ++ evs ∧
        Event.executeTemplate "page.html".toList (TemplateData.page t (renderHtml p.Body)) ∈ evs ∧
        ∀ u c, Event.redirect u c ∉ evs) := by
  refine ⟨loadPage_error_iff t σ, ?_, ?_⟩
  · rintro ⟨e, he⟩
    rw [handlePageRequest_trace, he]
    rfl
  · intro p hp
    refine ⟨_, handlePageRequest_trace r t σ, ?_, ?_⟩
    · rw [hp]; simp
    · intro u c
      rw [hp]
      simp [tmplTail_cases]

theorem handlePageRequest_redirect_witness :
    (∃ e, (loadPage "Home".toList World.blank).1 = Except.error e) ∧
    (handlePageRequest ⟨"/p/Home".toList, []⟩ "Home".toList World.blank).trace
      = World.blank.trace ++ [Event.readFile ("data/".toList ++ "Home".toList ++ ".txt".toList),
          Event.redirect ("/e/".toList ++ "Home".toList) 302] :=
  ⟨⟨_, rfl⟩,
   (handlePageRequest_redirect ⟨"/p/Home".toList, []⟩ "Home".toList World.blank).2.1 ⟨_, rfl⟩⟩

/-- C7, as stated, fails: the page file of `x` exists with body `hi` but cannot
be read; the edit handler shows `Creating` with an empty body, not `Editing`
with `hi`. -/
theorem handleEditRequest_unreadable :
    World.unreadable.files "data/x.txt".toList = some "hi".toList ∧
    (handleEditRequest ⟨"/e/x".toList, []⟩ "x".toList World.unreadable).trace
      = [Event.readFile "data/x.txt".toList,
         Event.executeTemplate "edit.html".toList
           (TemplateData.edit "Creating".toList "x".toList [])] ∧
    Event.executeTemplate "edit.html".toList
        (TemplateData.edit "Editing".toList "x".toList "hi".toList)
      ∉ (handleEditRequest ⟨"/e/x".toList, []⟩ "x".toList World.unreadable).trace := by
  decide

/-- C7, amended: the edit handler renders the edit template with the title and
with action `Creating` and an empty body when `loadPage` fails (no page file, or
the file cannot be read), and with action `Editing` and the stored bytes as the
body when the page file exists and can be read (an empty file included). -/
theorem handleEditRequest_action (r : Request) (t : Str) (σ : World) :
    ((σ.files ("data/".toList ++ t ++ ".txt".toList) = none
        ∨ ∃ e, σ.readErr ("data/".toList ++ t ++ ".txt".toList) = some e) →
      (handleEditRequest r t σ).trace
        = σ.trace ++ Event.readFile ("data/".toList ++ t ++ ".txt".toList) ::
            Event.executeTemplate "edit.html".toList (TemplateData.edit "Creating".toList t []) ::
            tmplTail σ "edit.html".toList (TemplateData.edit "Creating".toList t [])) ∧
    (∀ b, σ.files ("data/".toList ++ t ++ ".txt".toList) = some b →
      σ.readErr ("data/".toList ++ t ++ ".txt".toList) = none →
      (handleEditRequest r t σ).trace
        = σ.trace ++ Event.readFile ("data/".toList ++ t ++ ".txt".toList) ::
            Event.executeTemplate "edit.html".toList (TemplateData.edit "Editing".toList t b) ::
            tmplTail σ "edit.html".toList (TemplateData.edit "Editing".toList t b)) := by
  constructor
  · intro h
    obtain ⟨e, he⟩ := (loadPage_error_iff t σ).mpr h
    rw [handleEditRequest_trace, he]
    rfl
  · intro b hb hr
    have hp : (loadPage t σ).1 = Except.ok { Title := t, Body := b } :=
      (loadPage_ok_iff t σ _).mpr ⟨hr, hb, rfl⟩
    rw [handleEditRequest_trace, hp]
    rfl

theorem handleEditRequest_action_witness :
    (handleEditRequest ⟨"/e/x".toList, []⟩ "x".toList World.unreadable).trace
      = World.unreadable.trace ++ Event.readFile ("data/".toList ++ "x".toList ++ ".txt".toList) ::
          Event.executeTemplate "edit.html".toList
            (TemplateData.edit "Creating".toList "x".toList []) ::
          tmplTail World.unreadable "edit.html".toList
            (TemplateData.edit "Creating".toList "x".toList []) :=
  (handleEditRequest_action ⟨"/e/x".toList, []⟩ "x".toList World.unreadable).1
    (Or.inr ⟨_, rfl⟩)

/-- C8: the save handler builds the page of the title and the form body and
calls `save` once; when `save` fails with `e` the response is the 500 with the
text of `e` and no redirect; when it succeeds the response is the 302 redirect
to `/p/<title>`. -/
theorem handleSaveRequest_response (r : Request) (t : Str) (σ : World) :
    (∀ e, (Page.save { Title := t, Body := r.FormValue "body".toList } σ).1 = some e →
      (handleSaveRequest r t σ).trace
        = σ.trace ++ [Event.writeFile ("data/".toList ++ t ++ ".txt".toList)
                        (r.FormValue "body".toList) 0o600,
                      Event.error e 500]) ∧
    ((Page.save { Title := t, Body := r.FormValue "body".toList } σ).1 = none →
      (handleSaveRequest r t σ).trace
        = σ.trace ++ [Event.writeFile ("data/".toList ++ t ++ ".txt".toList)
                        (r.FormValue "body".toList) 0o600,
                      Event.redirect ("/p/".toList ++ t) 302]) := by
  constructor
  · intro e he
    rw [handleSaveRequest_trace, he]
    rfl
  · intro he
    rw [handleSaveRequest_trace, he]
    rfl

theorem handleSaveRequest_response_witness :
    (handleSaveRequest ⟨"/s/x".toList, [("body".toList, "hi".toList)]⟩ "x".toList
        World.readOnly).trace
      = World.readOnly.trace ++ [Event.writeFile ("data/".toList ++ "x".toList ++ ".txt".toList)
            (Request.FormValue ⟨"/s/x".toList, [("body".toList, "hi".toList)]⟩ "body".toList)
            0o600,
          Event.error "read-only file system".toList 500] ∧
    (handleSaveRequest ⟨"/s/x".toList, [("body".toList, "hi".toList)]⟩ "x".toList
        World.blank).trace
      = World.blank.trace ++ [Event.writeFile ("data/".toList ++ "x".toList ++ ".txt".toList)
            (Request.FormValue ⟨"/s/x".toList, [("body".toList, "hi".toList)]⟩ "body".toList)
            0o600,
          Event.redirect ("/p/".toList ++ "x".toList) 302] :=
  ⟨(handleSaveRequest_response ⟨"/s/x".toList, [("body".toList, "hi".toList)]⟩ "x".toList
      World.readOnly).1 _ rfl,
   (handleSaveRequest_response ⟨"/s/x".toList, [("body".toList, "hi".toList)]⟩ "x".toList
      World.blank).2 rfl⟩

/-- C9: the only file a routed request reads or writes is `data/<t>.txt` for
the title `t` extracted from its path; `t` is non-empty, consists of ASCII
letters and digits only, and so holds no `/`, `.`, `\` or NUL: the file is a
direct child of the data directory. A request the router rejects touches no
file. -/
theorem file_access_confined (h : Request → Str → World → World)
    (hh : h = handlePageRequest ∨ h = handleEditRequest ∨ h = handleSaveRequest)
    (r : Request) (σ : World) :
    ∃ evs, (makeHandler h r σ).trace = σ.trace ++ evs ∧
      ∀ ev ∈ evs, ∀ name, ev.file = some name →
        ∃ t, getTitle r.path = Except.ok t ∧
          name = "data/".toList ++ t ++ ".txt".toList ∧
          t ≠ [] ∧ (∀ c ∈ t, c.isAlphanum = true) ∧
          '/' ∉ t ∧ '.' ∉ t ∧ '\\' ∉ t ∧ Char.ofNat 0 ∉ t ∧
          '/' ∉ t ++ ".txt".toList := by
  cases hg : getTitle r.path with
  | error e =>
    refine ⟨[Event.notFound], ?_, ?_⟩
    · simp [makeHandler, hg, World.emit]
    · intro ev hev name hname
      simp at hev
      subst hev
      cases hname
  | ok t =>
    obtain ⟨evs, he, hf⟩ := handler_files h hh r t σ
    refine ⟨evs, ?_, ?_⟩
    · simp [makeHandler, hg, he]
    · intro ev hev name hname
      obtain ⟨p, _, _, hne, hall⟩ := (getTitle_ok_iff r.path t).mp hg
      have h1 := alnum_not_mem t hall '/' (by decide)
      refine ⟨t, rfl, hf ev hev name hname, hne, hall, h1,
        alnum_not_mem t hall '.' (by decide), alnum_not_mem t hall '\\' (by decide),
        alnum_not_mem t hall (Char.ofNat 0) (by decide), ?_⟩
      intro hm
      rcases List.mem_append.mp hm with hm | hm
      · exact h1 hm
      · revert hm; decide

theorem file_access_confined_witness :
    ∃ evs, (makeHandler handleSaveRequest ⟨"/s/x".toList, [("body".toList, "hi".toList)]⟩
        World.blank).trace = World.blank.trace ++ evs ∧
      ∀ ev ∈ evs, ∀ name, ev.file = some name →
        ∃ t, getTitle (Request.path ⟨"/s/x".toList, [("body".toList, "hi".toList)]⟩)
            = Except.ok t ∧
          name = "data/".toList ++ t ++ ".txt".toList ∧
          t ≠ [] ∧ (∀ c ∈ t, c.isAlphanum = true) ∧
          '/' ∉ t ∧ '.' ∉ t ∧ '\\' ∉ t ∧ Char.ofNat 0 ∉ t ∧
          '/' ∉ t ++ ".txt".toList :=
  file_access_confined handleSaveRequest (Or.inr (Or.inr rfl))
    ⟨"/s/x".toList, [("body".toList, "hi".toList)]⟩ World.blank

/-- C10: for a title `t` the router hands to a handler, both redirect targets,
`editPrefix ++ t` of the view handler and `pagePrefix ++ t` of the save handler,
are accepted by `validPath` with the same title: the router serves them with the
wrapped handler and title `t`, never with the 404. -/
theorem redirects_stay_routable (path t : Str) (h : getTitle path = Except.ok t) :
    getTitle (editPrefix ++ t) = Except.ok t ∧
    getTitle (pagePrefix ++ t) = Except.ok t ∧
    (∀ (r : Request) (σ : World), ∃ evs,
      (handlePageRequest r t σ).trace = σ.trace ++ evs ∧
        ∀ u c, Event.redirect u c ∈ evs → u = editPrefix ++ t ∧ getTitle u = Except.ok t) ∧
    (∀ (r : Request) (σ : World), ∃ evs,
      (handleSaveRequest r t σ).trace = σ.trace ++ evs ∧
        ∀ u c, Event.redirect u c ∈ evs → u = pagePrefix ++ t ∧ getTitle u = Except.ok t) ∧
    (∀ (fn : Request → Str → World → World) (r : Request) (σ : World),
      (r.path = editPrefix ++ t ∨ r.path = pagePrefix ++ t) → makeHandler fn r σ = fn r t σ) := by
  obtain ⟨p, _, _, hne, hall⟩ := (getTitle_ok_iff path t).mp h
  have he : getTitle (editPrefix ++ t) = Except.ok t :=
    (getTitle_ok_iff _ t).mpr ⟨"/e/".toList, Or.inr (Or.inl rfl), rfl, hne, hall⟩
  have hp : getTitle (pagePrefix ++ t) = Except.ok t :=
    (getTitle_ok_iff _ t).mpr ⟨"/p/".toList, Or.inl rfl, rfl, hne, hall⟩
  refine ⟨he, hp, ?_, ?_, ?_⟩
  · intro r σ
    refine ⟨_, handlePageRequest_trace r t σ, ?_⟩
    intro u c hu
    rcases List.mem_cons.mp hu with hu | hu
    · cases hu
    · cases hl : (loadPage t σ).1 with
      | error e =>
        rw [hl] at hu
        simp at hu
        rw [hu.1]
        exact ⟨rfl, he⟩
      | ok pg =>
        rw [hl] at hu
        rcases List.mem_cons.mp hu with hu | hu
        · cases hu
        · obtain ⟨err, _, hu⟩ := (tmplTail_cases _ _ _ _).mp hu
          cases hu
  · intro r σ
    refine ⟨_, handleSaveRequest_trace r t σ, ?_⟩
    intro u c hu
    rcases List.mem_cons.mp hu with hu | hu
    · cases hu
    · cases hl : (Page.save { Title := t, Body := r.FormValue "body".toList } σ).1 with
      | some e =>
        rw [hl] at hu
        simp at hu
      | none =>
        rw [hl] at hu
        simp at hu
        rw [hu.1]
        exact ⟨rfl, hp⟩
  · intro fn r σ hr
    rcases hr with hr | hr
    · simp [makeHandler, hr, he]
    · simp [makeHandler, hr, hp]

theorem redirects_stay_routable_witness :
    getTitle "/p/Home".toList = Except.ok "Home".toList ∧
    getTitle (editPrefix ++ "Home".toList) = Except.ok "Home".toList ∧
    getTitle (pagePrefix ++ "Home".toList) = Except.ok "Home".toList :=
  ⟨rfl, (redirects_stay_routable "/p/Home".toList "Home".toList rfl).1,
   (redirects_stay_routable "/p/Home".toList "Home".toList rfl).2.1⟩

end Zk
